import Mathlib

/-!
Verification development for the AtomMan panel driver (src/screen.py).

The definitions below are a shallow embedding of the protocol engine and
the sensor-selection layer of screen.py: byte streams are lists of
naturals, wall-clock times are rationals, fallible reads are Options.
Each definition is translated from the corresponding Python function and
keeps its name where Lean allows it.
-/

set_option maxHeartbeats 1000000

/-- Fixed 4-byte frame trailer CC 33 C3 3C (TRAILER in screen.py). -/
def TRAILER : List Nat := [0xCC, 0x33, 0xC3, 0x3C]

/-- Model of read_enq(ser) in screen.py. The serial stream is modelled as
the list of bytes it will deliver (a short list models a timeout: reads
past the end return nothing). The function mirrors the Python code, which
reads one byte and compares it with 0xAA, reads one byte and compares it
with 0x05, reads the sequence byte, then reads four bytes and compares
them with the trailer, returning early at the first mismatch. The result
pairs the parsed sequence byte (or none) with the number of bytes
consumed from the stream. -/
def read_enq (s : List Nat) : Option Nat × Nat :=
  match s with
  | [] => (none, 0)
  | b1 :: rest1 =>
    if b1 ≠ 0xAA then (none, 1) else
    match rest1 with
    | [] => (none, 1)
    | b2 :: rest2 =>
      if b2 ≠ 0x05 then (none, 2) else
      match rest2 with
      | [] => (none, 2)
      | b3 :: rest3 =>
        let tr := rest3.take 4
        if tr ≠ TRAILER then (none, 3 + tr.length)
        else (some b3, 7)

/-- Tile id byte for the CPU tile (screen.py tile constants). -/
def CPU : Nat := 0x53
/-- Tile id byte for the GPU tile. -/
def GPU : Nat := 0x36
/-- Tile id byte for the memory tile. -/
def MEM : Nat := 0x49
/-- Tile id byte for the disk tile. -/
def DSK : Nat := 0x4F
/-- Tile id byte for the date tile. -/
def DAT : Nat := 0x6B
/-- Tile id byte for the network tile. -/
def NET : Nat := 0x27
/-- Tile id byte for the volume tile. -/
def VOL : Nat := 0x10
/-- Tile id byte for the battery tile. -/
def BAT : Nat := 0x1A

/-- Model of the SEQ_FOR dictionary in screen.py: per-tile fixed
steady-state sequence character, none for a key outside the dictionary. -/
def SEQ_FOR (tile : Nat) : Option Char :=
  if tile = CPU then some '2'
  else if tile = GPU then some '3'
  else if tile = MEM then some '4'
  else if tile = DSK then some '5'
  else if tile = DAT then some '6'
  else if tile = NET then some '7'
  else if tile = VOL then some '9'
  else if tile = BAT then some '2'
  else none

/-- Model of seq_for(tile_id) in screen.py: dictionary lookup with
default character 2, then ord, with a special case for the character <. -/
def seq_for (tile : Nat) : Nat :=
  let ch := (SEQ_FOR tile).getD '2'
  if ch = '<' then 0x3C else ch.toNat

/-- Latin-1 encoding with the ignore error handler, as used by
build_reply in screen.py: characters above 0xFF are dropped, the rest map
to their code point as a single byte. -/
def encodeLatin1 (txt : String) : List Nat :=
  txt.data.filterMap (fun c => if c.toNat ≤ 0xFF then some c.toNat else none)

/-- Model of build_reply(id_byte, seq_ascii, txt) in screen.py. -/
def build_reply (id_byte : Nat) (seq_ascii : Nat) (txt : String) : List Nat :=
  [0xAA, id_byte, 0x00, seq_ascii] ++ encodeLatin1 txt ++ TRAILER

/-- Steady-state rotation FULL_ROT of screen.py, as the list of tile id
bytes (the payload makers are modelled by passing payload text to
steadyStep explicitly). -/
def FULL_ROT : List Nat := [CPU, GPU, MEM, DSK, DAT, NET, VOL, BAT]

/-- Unlock rotation UNLOCK_ROT of screen.py (tile id bytes only). -/
def UNLOCK_ROT : List Nat := [CPU, GPU, MEM]

/-- Value of the steady-state loop variable idx of screen.py main() after
n replies have been sent: it starts at 0 and each reply advances it by
idx := (idx + 1) % 1000000. -/
def idxAfter : Nat → Nat
  | 0 => 0
  | n + 1 => (idxAfter n + 1) % 1000000

/-- Body of one iteration of the steady-state loop in screen.py main():
given the current rotation index, the result of read_enq (none models an
invalid or timed-out poll) and the payload text the tile maker produced,
it returns the reply frame written (none when no reply is sent) and the
new rotation index. The reply uses the tile picked from FULL_ROT by the
index and that tile's fixed sequence code from seq_for; the sequence byte
carried by the poll is not inspected. -/
def steadyStep (idx : Nat) (enq3 : Option Nat) (payload : String) :
    Option (List Nat) × Nat :=
  match enq3 with
  | none => (none, idx)
  | some _ =>
    let tile := FULL_ROT.getD (idx % FULL_ROT.length) 0
    (some (build_reply tile (seq_for tile) payload), (idx + 1) % 1000000)

/-- Tile served in reply to the n-th valid poll after entering steady
state, as screen.py computes it (wrapped index). -/
def servedTile (n : Nat) : Nat :=
  FULL_ROT.getD (idxAfter n % FULL_ROT.length) 0

/-- Modelled from the claim words for the refinement comparison: the same
scheduler with an unbounded index, serving FULL_ROT at n mod 8. -/
def servedTileUnbounded (n : Nat) : Nat :=
  FULL_ROT.getD (n % FULL_ROT.length) 0

theorem idxAfter_eq_mod (n : Nat) : idxAfter n = n % 1000000 := by
  induction n with
  | zero => rfl
  | succ k ih => rw [idxAfter, ih]; omega

/-- C1: in steady state, for every valid poll received, the reply's
sequence byte is the served tile's fixed code from the mapping
CPU=0x53 to 2, GPU=0x36 to 3, MEM=0x49 to 4, DSK=0x4F to 5, DAT=0x6B to 6,
NET=0x27 to 7, VOL=0x10 to 9, BAT=0x1A to 2 (CPU and BAT share code 2),
the tile being chosen by round-robin over the 8-tile rotation, and the
reply is independent of whatever sequence byte the poll carried. -/
theorem atomman_c1 (n s t : Nat) (payload : String) :
    steadyStep (idxAfter n) (some s) payload
      = steadyStep (idxAfter n) (some t) payload
    ∧ ((steadyStep (idxAfter n) (some s) payload).1).map (fun f => f.getD 3 0)
      = some (seq_for (servedTile n))
    ∧ servedTile n = FULL_ROT.getD (n % 8) 0
    ∧ seq_for CPU = 0x32 ∧ seq_for GPU = 0x33 ∧ seq_for MEM = 0x34
    ∧ seq_for DSK = 0x35 ∧ seq_for DAT = 0x36 ∧ seq_for NET = 0x37
    ∧ seq_for VOL = 0x39 ∧ seq_for BAT = 0x32 ∧ seq_for BAT = seq_for CPU := by
  refine ⟨rfl, rfl, ?_, by decide, by decide, by decide, by decide, by decide,
    by decide, by decide, by decide, by decide⟩
  show FULL_ROT.getD (idxAfter n % FULL_ROT.length) 0 = FULL_ROT.getD (n % 8) 0
  rw [idxAfter_eq_mod]
  congr 1
  show n % 1000000 % 8 = n % 8
  exact Nat.mod_mod_of_dvd n (by norm_num)

/-- C10: the steady-state scheduler advances its index as
(idx + 1) % 1000000; since 8 divides 1000000 this wrapped-index scheduler
serves exactly the tile FULL_ROT[n mod 8] on the n-th valid poll, the
same as a scheduler with an unbounded index. -/
theorem atomman_c10 (n : Nat) :
    servedTile n = servedTileUnbounded n
    ∧ idxAfter n = n % 1000000
    ∧ FULL_ROT.length = 8
    ∧ (8 : Nat) ∣ 1000000 := by
  refine ⟨?_, idxAfter_eq_mod n, by decide, by norm_num⟩
  show FULL_ROT.getD (idxAfter n % FULL_ROT.length) 0
      = FULL_ROT.getD (n % FULL_ROT.length) 0
  rw [idxAfter_eq_mod]
  congr 1
  show n % 1000000 % 8 = n % 8
  exact Nat.mod_mod_of_dvd n (by norm_num)

/-- C3: for every well-formed 7-byte poll frame (byte 1 = 0xAA, byte 2 =
0x05, last 4 bytes CC 33 C3 3C) read_enq returns the 3rd byte, and for a
single-byte corruption of either fixed header byte or of any one trailer
byte it returns none. -/
theorem atomman_c3 (b3 c : Nat) (rest : List Nat) :
    (read_enq (0xAA :: 0x05 :: b3 :: 0xCC :: 0x33 :: 0xC3 :: 0x3C :: rest)).1
      = some b3
    ∧ (c ≠ 0xAA →
        (read_enq (c :: 0x05 :: b3 :: 0xCC :: 0x33 :: 0xC3 :: 0x3C :: rest)).1
          = none)
    ∧ (c ≠ 0x05 →
        (read_enq (0xAA :: c :: b3 :: 0xCC :: 0x33 :: 0xC3 :: 0x3C :: rest)).1
          = none)
    ∧ (c ≠ 0xCC →
        (read_enq (0xAA :: 0x05 :: b3 :: c :: 0x33 :: 0xC3 :: 0x3C :: rest)).1
          = none)
    ∧ (c ≠ 0x33 →
        (read_enq (0xAA :: 0x05 :: b3 :: 0xCC :: c :: 0xC3 :: 0x3C :: rest)).1
          = none)
    ∧ (c ≠ 0xC3 →
        (read_enq (0xAA :: 0x05 :: b3 :: 0xCC :: 0x33 :: c :: 0x3C :: rest)).1
          = none)
    ∧ (c ≠ 0x3C →
        (read_enq (0xAA :: 0x05 :: b3 :: 0xCC :: 0x33 :: 0xC3 :: c :: rest)).1
          = none) := by
  refine ⟨by simp [read_enq, TRAILER], ?_, ?_, ?_, ?_, ?_, ?_⟩ <;>
    intro h <;> simp [read_enq, TRAILER, h]

/-- C3 witness: the theorem applied at a concrete frame with sequence
byte 0x32 and a concrete header corruption 0x00. -/
theorem atomman_c3_witness :
    (read_enq [0xAA, 0x05, 0x32, 0xCC, 0x33, 0xC3, 0x3C]).1 = some 0x32
    ∧ (read_enq [0x00, 0x05, 0x32, 0xCC, 0x33, 0xC3, 0x3C]).1 = none :=
  ⟨(atomman_c3 0x32 0x00 []).1, (atomman_c3 0x32 0x00 []).2.1 (by decide)⟩

/-- C4 counterexample: a frame whose first byte is corrupted is abandoned
after consuming a single byte, so a read_enq call does not always consume
exactly 7 bytes even though the stream has 7 bytes available. -/
theorem atomman_c4_cex :
    (read_enq [0x00, 0x05, 0x32, 0xCC, 0x33, 0xC3, 0x3C]).2 = 1
    ∧ (1 : Nat) ≠ 7 := by decide

/-- C4 amended: with at least 7 bytes available, read_enq consumes
exactly 7 bytes whenever the two fixed header bytes match (whether or not
the trailer validates); when the first byte mismatches it consumes 1
byte, and when the first matches but the second mismatches it consumes 2
bytes. -/
theorem atomman_c4 (b1 b2 b3 b4 b5 b6 b7 : Nat) (rest : List Nat) :
    (b1 = 0xAA → b2 = 0x05 →
      (read_enq (b1 :: b2 :: b3 :: b4 :: b5 :: b6 :: b7 :: rest)).2 = 7)
    ∧ (b1 ≠ 0xAA →
      (read_enq (b1 :: b2 :: b3 :: b4 :: b5 :: b6 :: b7 :: rest)).2 = 1)
    ∧ (b1 = 0xAA → b2 ≠ 0x05 →
      (read_enq (b1 :: b2 :: b3 :: b4 :: b5 :: b6 :: b7 :: rest)).2 = 2) := by
  refine ⟨?_, ?_, ?_⟩
  · intro h1 h2
    subst h1; subst h2
    simp only [read_enq]
    split <;> simp_all [List.take]
    split <;> rfl
  · intro h
    simp [read_enq, h]
  · intro h1 h2
    subst h1
    simp [read_enq, h2]

/-- C4 witness: the amended theorem applied to a valid-header frame with
a corrupted trailer (still 7 bytes consumed) and to a corrupted-header
frame (1 byte consumed). -/
theorem atomman_c4_witness :
    (read_enq [0xAA, 0x05, 0x32, 0x00, 0x33, 0xC3, 0x3C]).2 = 7
    ∧ (read_enq [0x00, 0x05, 0x32, 0xCC, 0x33, 0xC3, 0x3C]).2 = 1 :=
  ⟨(atomman_c4 0xAA 0x05 0x32 0x00 0x33 0xC3 0x3C []).1 rfl rfl,
   (atomman_c4 0x00 0x05 0x32 0xCC 0x33 0xC3 0x3C []).2.1 (by decide)⟩

/-- Model of the rounding used by CPython (round-half-to-even) on the
exact rational value, as in round(x) and the .1f format spec of
screen.py. -/
def pyRound (q : ℚ) : ℤ :=
  let f : ℤ := ⌊q⌋
  let d : ℚ := q - f
  if d < 1 / 2 then f
  else if 1 / 2 < d then f + 1
  else if f % 2 = 0 then f else f + 1

/-- Rendering of a nonnegative rational with one decimal place, as the
format spec .1f of screen.py produces for the values in play: the value
is rounded half-to-even at one decimal digit and printed as
integer-part.tenths. -/
def fmt1 (q : ℚ) : String :=
  let n := pyRound (q * 10)
  toString (n / 10) ++ "." ++ toString (n % 10)

/-- Model of _fmt_rate(rate_kbs) in screen.py: N/A for a missing rate,
otherwise auto-scaled one-decimal text with the K/s, M/s or G/s unit (the
locals mbps and gbps of the source are inlined). -/
def fmt_rate (rate_kbs : Option ℚ) : String :=
  match rate_kbs with
  | none => "N/A"
  | some r =>
    if r < 1024 then fmt1 r ++ " K/s"
    else if r / 1024 < 1024 then fmt1 (r / 1024) ++ " M/s"
    else fmt1 (r / 1024 / 1024) ++ " G/s"

theorem pyRound_intCast (z : ℤ) : pyRound (z : ℚ) = z := by
  unfold pyRound
  rw [Int.floor_intCast]
  norm_num

theorem fmt1_eq_of_eq_int (q : ℚ) (z : ℤ) (h : q = (z : ℚ)) :
    fmt1 q = toString z ++ "." ++ "0" := by
  unfold fmt1
  have h1 : q * 10 = ((z * 10 : ℤ) : ℚ) := by rw [h]; push_cast; ring
  rw [h1, pyRound_intCast]
  have h2 : z * 10 / 10 = z := by omega
  have h3 : z * 10 % 10 = 0 := by omega
  simp only [h2, h3]
  rfl

/-- C9: the display formatter produces one decimal place and
auto-scales: values below 1024 KB/s render with the K/s unit, values in
[1024, 1024*1024) render divided by 1024 with the M/s unit, larger values
render divided by 1024 twice with the G/s unit; in particular 512 gives
512.0 K/s, 2048 gives 2.0 M/s, 2097152 gives 2.0 G/s, and exactly 1024
gives 1.0 M/s rather than 1024.0 K/s. -/
theorem atomman_c9 :
    fmt_rate (some 512) = "512.0 K/s"
    ∧ fmt_rate (some 2048) = "2.0 M/s"
    ∧ fmt_rate (some 2097152) = "2.0 G/s"
    ∧ fmt_rate (some 1024) = "1.0 M/s"
    ∧ ∀ q : ℚ, 0 ≤ q →
        (q < 1024 → fmt_rate (some q) = fmt1 q ++ " K/s")
        ∧ (1024 ≤ q → q / 1024 < 1024 →
            fmt_rate (some q) = fmt1 (q / 1024) ++ " M/s")
        ∧ (1024 * 1024 ≤ q →
            fmt_rate (some q) = fmt1 (q / 1024 / 1024) ++ " G/s") := by
  refine ⟨?_, ?_, ?_, ?_, ?_⟩
  · simp only [fmt_rate]
    rw [if_pos (by norm_num : (512:ℚ) < 1024),
      fmt1_eq_of_eq_int 512 512 (by norm_num)]
    rfl
  · simp only [fmt_rate]
    rw [if_neg (by norm_num : ¬ (2048:ℚ) < 1024),
      if_pos (by norm_num : (2048:ℚ)/1024 < 1024),
      fmt1_eq_of_eq_int ((2048:ℚ)/1024) 2 (by norm_num)]
    rfl
  · simp only [fmt_rate]
    rw [if_neg (by norm_num : ¬ (2097152:ℚ) < 1024),
      if_neg (by norm_num : ¬ (2097152:ℚ)/1024 < 1024),
      fmt1_eq_of_eq_int ((2097152:ℚ)/1024/1024) 2 (by norm_num)]
    rfl
  · simp only [fmt_rate]
    rw [if_neg (by norm_num : ¬ (1024:ℚ) < 1024),
      if_pos (by norm_num : (1024:ℚ)/1024 < 1024),
      fmt1_eq_of_eq_int ((1024:ℚ)/1024) 1 (by norm_num)]
    rfl
  · intro q _
    refine ⟨?_, ?_, ?_⟩
    · intro h
      simp only [fmt_rate]
      rw [if_pos h]
    · intro h1 h2
      simp only [fmt_rate]
      rw [if_neg (not_lt.mpr h1), if_pos h2]
    · intro h
      have h1 : ¬ q < 1024 := not_lt.mpr (by linarith)
      have h2 : ¬ q / 1024 < 1024 := by
        rw [not_lt, le_div_iff₀ (by norm_num : (0:ℚ) < 1024)]
        linarith
      simp only [fmt_rate]
      rw [if_neg h1, if_neg h2]

/-- C9 witness: the scaling clauses of the theorem instantiated at the
concrete rates 512 and 1048576 KB/s. -/
theorem atomman_c9_witness :
    fmt_rate (some 512) = fmt1 512 ++ " K/s"
    ∧ fmt_rate (some 1048576) = fmt1 (1048576 / 1024 / 1024) ++ " G/s" :=
  ⟨((atomman_c9.2.2.2.2 512 (by norm_num)).1 (by norm_num)),
   ((atomman_c9.2.2.2.2 1048576 (by norm_num)).2.2 (by norm_num))⟩

/-- Model of _fan_rpm_from_hwmon() in screen.py: the readings argument
lists the integer values parsed from the fan*_input files in scan order;
the fold keeps the maximum strictly positive reading and yields none when
no file produced a positive value. -/
def fan_rpm_from_hwmon (readings : List ℤ) : Option ℤ :=
  readings.foldl
    (fun best v =>
      if 0 < v then
        match best with
        | none => some v
        | some b => some (max b v)
      else best)
    none

/-- Model of _fan_rpm_from_nvidia(max_rpm) in screen.py: duty is the fan
duty percentage parsed from the vendor tool (none when the tool is absent
or its output unparsable); the result is round(percent/100 * max(1,
max_rpm)) with round-half-to-even rounding. -/
def fan_rpm_from_nvidia (max_rpm : ℤ) (duty : Option ℚ) : Option ℤ :=
  match duty with
  | none => none
  | some p => some (pyRound (p / 100 * ((max 1 max_rpm : ℤ) : ℚ)))

/-- Model of fan_rpm(prefer, max_rpm) in screen.py, with the two sources
abstracted by their inputs (hwmon readings, nvidia duty). The prefer
argument is taken after the source's (prefer or "auto").lower()
normalization, with the empty-string guard kept explicit; any string
other than hwmon and nvidia falls through to the auto branch, exactly as
in the source. -/
def fan_rpm (prefer : String) (readings : List ℤ) (duty : Option ℚ)
    (max_rpm : ℤ) : ℤ :=
  let p := if prefer = "" then "auto" else prefer
  if p = "hwmon" then
    match fan_rpm_from_hwmon readings with
    | some v => v
    | none =>
      match fan_rpm_from_nvidia max_rpm duty with
      | some v => v
      | none => -1
  else if p = "nvidia" then
    match fan_rpm_from_nvidia max_rpm duty with
    | some v => v
    | none =>
      match fan_rpm_from_hwmon readings with
      | some v => v
      | none => -1
  else
    match fan_rpm_from_hwmon readings with
    | some v => v
    | none =>
      match fan_rpm_from_nvidia max_rpm duty with
      | some v => v
      | none => -1

theorem fan_rpm_from_hwmon_pos (readings : List ℤ) (v : ℤ)
    (h : fan_rpm_from_hwmon readings = some v) : 0 < v := by
  rw [fan_rpm_from_hwmon] at h
  suffices hgen : ∀ acc : Option ℤ, (∀ b, acc = some b → 0 < b) →
      ∀ w, (readings.foldl
        (fun best x =>
          if 0 < x then
            match best with
            | none => some x
            | some b => some (max b x)
          else best) acc) = some w → 0 < w by
    exact hgen none (by intro b hb; cases hb) v h
  clear h
  induction readings with
  | nil => intro acc hacc w hw; exact hacc w hw
  | cons x xs ih =>
    intro acc hacc w hw
    simp only [List.foldl_cons] at hw
    refine ih _ ?_ w hw
    intro b hb
    by_cases hx : 0 < x
    · rw [if_pos hx] at hb
      cases acc with
      | none => simp at hb; omega
      | some a =>
        simp at hb
        have := hacc a rfl
        rcases hb with hb
        omega
    · rw [if_neg hx] at hb
      exact hacc b hb

theorem pyRound_nonneg (q : ℚ) (h : 0 ≤ q) : 0 ≤ pyRound q := by
  have hfl : (0 : ℤ) ≤ ⌊q⌋ := Int.floor_nonneg.mpr h
  show 0 ≤ if q - (⌊q⌋ : ℚ) < 1 / 2 then ⌊q⌋
    else if 1 / 2 < q - (⌊q⌋ : ℚ) then ⌊q⌋ + 1
    else if ⌊q⌋ % 2 = 0 then ⌊q⌋ else ⌊q⌋ + 1
  split
  · exact hfl
  · split
    · omega
    · split <;> omega

theorem fan_rpm_from_nvidia_nonneg (m : ℤ) (duty : Option ℚ) (v : ℤ)
    (hd : ∀ p, duty = some p → 0 ≤ p)
    (h : fan_rpm_from_nvidia m duty = some v) : 0 ≤ v := by
  cases duty with
  | none => cases h
  | some p =>
    simp only [fan_rpm_from_nvidia, Option.some.injEq] at h
    subst h
    refine pyRound_nonneg _ ?_
    have hp : 0 ≤ p := hd p rfl
    have hm : (0 : ℚ) ≤ ((max 1 m : ℤ) : ℚ) := by
      have : (1 : ℤ) ≤ max 1 m := le_max_left 1 m
      exact_mod_cast le_trans zero_le_one this
    positivity

/-- C5: for every preference in auto, hwmon, nvidia, fan_rpm tries the
preferred source first (auto tries hwmon first), falls back to the other
source when the first yields no value, returns the value of whichever
source answered (an NVIDIA zero-percent duty is a valid 0 RPM, not
absence), and returns -1 exactly when neither source yields a value; the
hypothesis records that a parsed duty percentage is nonnegative. -/
theorem atomman_c5 (readings : List ℤ) (duty : Option ℚ) (m : ℤ)
    (hd : ∀ p, duty = some p → 0 ≤ p) :
    (∀ v, fan_rpm_from_hwmon readings = some v →
      fan_rpm "hwmon" readings duty m = v ∧ fan_rpm "auto" readings duty m = v)
    ∧ (fan_rpm_from_hwmon readings = none →
        ∀ v, fan_rpm_from_nvidia m duty = some v →
          fan_rpm "hwmon" readings duty m = v
          ∧ fan_rpm "auto" readings duty m = v)
    ∧ (∀ v, fan_rpm_from_nvidia m duty = some v →
        fan_rpm "nvidia" readings duty m = v)
    ∧ (fan_rpm_from_nvidia m duty = none →
        ∀ v, fan_rpm_from_hwmon readings = some v →
          fan_rpm "nvidia" readings duty m = v)
    ∧ (∀ prefer, prefer = "auto" ∨ prefer = "hwmon" ∨ prefer = "nvidia" →
        (fan_rpm prefer readings duty m = -1 ↔
          fan_rpm_from_hwmon readings = none
          ∧ fan_rpm_from_nvidia m duty = none))
    ∧ fan_rpm_from_nvidia m (some 0) = some 0 := by
  have hpos := fan_rpm_from_hwmon_pos readings
  have hnn := fan_rpm_from_nvidia_nonneg m duty
  have key : ∀ first second : Option ℤ,
      (∀ v, first = some v → v ≠ -1) → (∀ v, second = some v → v ≠ -1) →
      ((match first with
        | some w => w
        | none =>
          match second with
          | some w => w
          | none => -1) = -1 ↔ first = none ∧ second = none) := by
    intro first second h1 h2
    cases first with
    | some v => simpa using h1 v rfl
    | none =>
      cases second with
      | some v => simpa using h2 v rfl
      | none => simp
  refine ⟨?_, ?_, ?_, ?_, ?_, ?_⟩
  · intro v hv
    refine ⟨?_, ?_⟩ <;>
    · show (match fan_rpm_from_hwmon readings with
        | some w => w
        | none =>
          match fan_rpm_from_nvidia m duty with
          | some w => w
          | none => -1) = v
      rw [hv]
  · intro h0 v hv
    refine ⟨?_, ?_⟩ <;>
    · show (match fan_rpm_from_hwmon readings with
        | some w => w
        | none =>
          match fan_rpm_from_nvidia m duty with
          | some w => w
          | none => -1) = v
      rw [h0, hv]
  · intro v hv
    show (match fan_rpm_from_nvidia m duty with
      | some w => w
      | none =>
        match fan_rpm_from_hwmon readings with
        | some w => w
        | none => -1) = v
    rw [hv]
  · intro h0 v hv
    show (match fan_rpm_from_nvidia m duty with
      | some w => w
      | none =>
        match fan_rpm_from_hwmon readings with
        | some w => w
        | none => -1) = v
    rw [h0, hv]
  · intro prefer hp
    have hL : ∀ v, fan_rpm_from_hwmon readings = some v → v ≠ -1 := by
      intro v hv
      have := hpos v hv
      omega
    have hR : ∀ v, fan_rpm_from_nvidia m duty = some v → v ≠ -1 := by
      intro v hv
      have := hnn v hd hv
      omega
    rcases hp with h | h | h <;> subst h
    · show (match fan_rpm_from_hwmon readings with
        | some w => w
        | none =>
          match fan_rpm_from_nvidia m duty with
          | some w => w
          | none => -1) = -1 ↔ _
      exact key _ _ hL hR
    · show (match fan_rpm_from_hwmon readings with
        | some w => w
        | none =>
          match fan_rpm_from_nvidia m duty with
          | some w => w
          | none => -1) = -1 ↔ _
      exact key _ _ hL hR
    · show (match fan_rpm_from_nvidia m duty with
        | some w => w
        | none =>
          match fan_rpm_from_hwmon readings with
          | some w => w
          | none => -1) = -1 ↔ _
      exact (key _ _ hR hL).trans and_comm
  · show fan_rpm_from_nvidia m (some 0) = some 0
    simp only [fan_rpm_from_nvidia, Option.some.injEq]
    have h : (0 : ℚ) / 100 * ((max 1 m : ℤ) : ℚ) = ((0 : ℤ) : ℚ) := by simp
    rw [h, pyRound_intCast]

/-- C5 witness: with a single zero hwmon reading, a 50 percent duty and
max RPM 4000, auto resolves through the nvidia fallback to 2000; with
both sources absent it resolves to -1. -/
theorem atomman_c5_witness :
    fan_rpm "auto" [0] (some 50) 4000 = 2000
    ∧ fan_rpm "auto" [] none 4000 = -1 := by
  have hd : ∀ p : ℚ, (some (50 : ℚ) : Option ℚ) = some p → 0 ≤ p := by
    intro p hp
    injection hp with h
    rw [← h]
    norm_num
  have hmax : max 1 (4000 : ℤ) = 4000 := by decide
  have hnv : fan_rpm_from_nvidia 4000 (some 50) = some 2000 := by
    simp only [fan_rpm_from_nvidia, Option.some.injEq]
    rw [hmax]
    have h : (50 : ℚ) / 100 * ((4000 : ℤ) : ℚ) = ((2000 : ℤ) : ℚ) := by
      norm_num
    rw [h, pyRound_intCast]
  constructor
  · exact ((atomman_c5 [0] (some 50) 4000 hd).2.1 (by decide) 2000 hnv).2
  · have hd0 : ∀ p : ℚ, (none : Option ℚ) = some p → 0 ≤ p := by
      intro p hp
      cases hp
    exact ((atomman_c5 [] none 4000 hd0).2.2.2.2.1 "auto"
      (Or.inl rfl)).mpr ⟨rfl, rfl⟩

/-- Model of is_ascii_seq(b) in screen.py. -/
def is_ascii_seq (b : Nat) : Bool :=
  (0x30 ≤ b && b ≤ 0x39) || b = 0x3C

/-- State of one unlock attempt in screen.py unlock_attempt: rotation
index, boot-reply counter, the enq_times list of poll arrival times, and
whether the activation condition has been declared. -/
structure UState where
  idx : Nat
  bootReplies : Nat
  enqTimes : List ℚ
  activated : Bool
  deriving Repr, DecidableEq

/-- Initial state of an unlock attempt (idx=0, boot_replies=0,
enq_times=[], not activated). -/
def initUState : UState := ⟨0, 0, [], false⟩

/-- One loop iteration of unlock_attempt in screen.py for a valid poll
received at time now carrying sequence byte seq: the arrival time is
appended and the list pruned to the trailing 2-second window, a reply
echoing seq is sent (not modelled: it does not affect the state), idx is
advanced, the boot counter is incremented when is_ascii_seq holds, and
the activation condition (boot counter at least 3 and at least 5
arrivals in the window) is evaluated. -/
def unlockStep (st : UState) (now : ℚ) (seq : Nat) : UState :=
  let ts := (st.enqTimes ++ [now]).filter (fun u => now - u ≤ 2)
  let br := st.bootReplies + (if is_ascii_seq seq then 1 else 0)
  { idx := st.idx + 1
    bootReplies := br
    enqTimes := ts
    activated := decide (3 ≤ br ∧ 5 ≤ ts.length) }

/-- Run of unlock_attempt over a finite list of valid-poll events
(arrival time, sequence byte): the loop breaks as soon as the activation
condition holds, abandoning the remaining events of the window. -/
def runUnlock (st : UState) : List (ℚ × Nat) → UState
  | [] => st
  | e :: rest =>
    let st' := unlockStep st e.1 e.2
    if st'.activated then st' else runUnlock st' rest

/-- Incremental trailing-window accumulator of unlock_attempt: the value
of enq_times after processing the given arrival times in order, ignoring
the break (used to relate the list to the set of arrivals within the
trailing 2-second window). -/
def enqAccum (times : List ℚ) : List ℚ :=
  times.foldl (fun acc t => (acc ++ [t]).filter (fun u => t - u ≤ 2)) []

theorem enqAccum_sorted (ts : List ℚ) (t : ℚ)
    (hs : ts.Sorted (· ≤ ·)) (ht : ∀ u ∈ ts, u ≤ t) :
    enqAccum (ts ++ [t]) = (ts ++ [t]).filter (fun u => t - u ≤ 2) := by
  induction ts using List.reverseRecOn generalizing t with
  | nil => simp [enqAccum]
  | append_singleton l a ih =>
    rw [List.Sorted, List.pairwise_append] at hs
    have hsl : l.Sorted (· ≤ ·) := hs.1
    have hla : ∀ u ∈ l, u ≤ a := by
      intro u hu
      exact hs.2.2 u hu a (by simp)
    have hat : a ≤ t := ht a (by simp)
    have step : enqAccum ((l ++ [a]) ++ [t])
        = ((enqAccum (l ++ [a]) ++ [t]).filter (fun u => t - u ≤ 2)) := by
      rw [enqAccum, List.foldl_append]
      rfl
    rw [step, ih a hsl hla, List.filter_append, List.filter_filter]
    have hcomb : (l ++ [a]).filter
          (fun u => decide (t - u ≤ 2) && decide (a - u ≤ 2))
        = (l ++ [a]).filter (fun u => t - u ≤ 2) := by
      apply List.filter_congr
      intro u _
      by_cases h : t - u ≤ 2
      · simp [h]
        linarith
      · simp [h]
    rw [hcomb, ← List.filter_append]

/-- C2: during an unlock attempt the state machine becomes activated,
evaluated after each reply, exactly when the boot-reply counter is at
least 3 and the number of poll arrivals within the trailing 2-second
window is at least 5; the boot-reply counter is incremented precisely
when the received sequence byte is an ASCII digit (0x30..0x39) or the
literal 0x3C; on activation the remaining events of the window are
abandoned; and for monotone arrival times the enq_times list is exactly
the set of arrivals within the trailing 2-second window. -/
theorem atomman_c2 (st : UState) (now : ℚ) (seq : Nat)
    (rest : List (ℚ × Nat)) :
    ((unlockStep st now seq).activated ↔
      (3 ≤ st.bootReplies + (if is_ascii_seq seq then 1 else 0)
        ∧ 5 ≤ ((st.enqTimes ++ [now]).filter (fun u => now - u ≤ 2)).length))
    ∧ (unlockStep st now seq).bootReplies
        = st.bootReplies
          + (if (0x30 ≤ seq ∧ seq ≤ 0x39) ∨ seq = 0x3C then 1 else 0)
    ∧ (is_ascii_seq seq = true ↔ ((0x30 ≤ seq ∧ seq ≤ 0x39) ∨ seq = 0x3C))
    ∧ ((unlockStep st now seq).activated = true →
        runUnlock st ((now, seq) :: rest) = unlockStep st now seq)
    ∧ (∀ (ts : List ℚ) (t : ℚ), ts.Sorted (· ≤ ·) → (∀ u ∈ ts, u ≤ t) →
        enqAccum (ts ++ [t]) = (ts ++ [t]).filter (fun u => t - u ≤ 2)) := by
  have hiff : is_ascii_seq seq = true
      ↔ ((0x30 ≤ seq ∧ seq ≤ 0x39) ∨ seq = 0x3C) := by
    simp [is_ascii_seq]
  refine ⟨?_, ?_, hiff, ?_, enqAccum_sorted⟩
  · simp [unlockStep]
  · show st.bootReplies + (if is_ascii_seq seq then 1 else 0) = _
    by_cases h : is_ascii_seq seq
    · rw [if_pos h, if_pos (hiff.mp h)]
    · rw [if_neg h, if_neg (fun hp => h (hiff.mpr hp))]
  · intro h
    simp [runUnlock, h]

/-- C2 witness: a concrete activating step (boot counter reaching 3 with
five arrivals inside 2 seconds) on which the window abandonment clause of
the theorem fires, discarding a later pending event. -/
theorem atomman_c2_witness :
    runUnlock ⟨4, 2, [0, 1, 1, 2], false⟩ [((2 : ℚ), 0x30), ((99 : ℚ), 0)]
      = unlockStep ⟨4, 2, [0, 1, 1, 2], false⟩ 2 0x30 := by
  have hfilter : (([0, 1, 1, 2] ++ [2]) : List ℚ).filter
      (fun u => (2 : ℚ) - u ≤ 2) = [0, 1, 1, 2, 2] := by
    have : (([0, 1, 1, 2] ++ [2]) : List ℚ) = [0, 1, 1, 2, 2] := by rfl
    rw [this, List.filter_eq_self]
    intro a ha
    fin_cases ha <;> norm_num
  refine (atomman_c2 ⟨4, 2, [0, 1, 1, 2], false⟩ 2 0x30 [((99 : ℚ), 0)]).2.2.2.1 ?_
  refine ((atomman_c2 ⟨4, 2, [0, 1, 1, 2], false⟩ 2 0x30 []).1).mpr ⟨?_, ?_⟩
  · have : is_ascii_seq 0x30 = true := by decide
    rw [this]
    norm_num
  · show 5 ≤ (List.filter (fun u => decide ((2:ℚ) - u ≤ 2)) ([0, 1, 1, 2] ++ [2])).length
    rw [hfilter]
    norm_num

/-- Events of the activation retry loop in screen.py main(): an unlock
attempt numbered k with its outcome, a DTR control-line pulse, the
warning printed when never activated, the success message, and entry
into the steady-state loop. -/
inductive MainEv where
  | att (k : Nat) (ok : Bool)
  | pulse
  | warn
  | okMsg
  | steady
  deriving Repr, DecidableEq

/-- Model of the for-loop over attempts in screen.py main(): outs lists,
for each remaining attempt, whether unlock_attempt would activate; k is
the number of the next attempt. The loop breaks right after a successful
attempt; after a failed attempt it always pulses DTR (deassert, settle,
reassert) before the next iteration, including after the last one. The
result is the event trace and the final activated flag. -/
def retryAux (k : Nat) : List Bool → List MainEv × Bool
  | [] => ([], false)
  | o :: rest =>
    if o then ([MainEv.att k true], true)
    else
      let r := retryAux (k + 1) rest
      (MainEv.att k false :: MainEv.pulse :: r.1, r.2)

/-- Model of main() from the start of the attempt loop to entry into the
steady-state loop: run the attempts starting at number 1, then print the
warning (not activated) or the success message, then proceed to steady
state unconditionally. -/
def mainTrace (outcomes : List Bool) : List MainEv :=
  let r := retryAux 1 outcomes
  r.1 ++ [if r.2 then MainEv.okMsg else MainEv.warn, MainEv.steady]

theorem retryAux_spec (outs : List Bool) : ∀ k : Nat,
    (retryAux k outs).1.count MainEv.pulse
      = (outs.takeWhile (fun b => !b)).length
    ∧ (retryAux k outs).2 = outs.any (fun b => b)
    ∧ (retryAux k outs).1.count MainEv.warn = 0 := by
  induction outs with
  | nil => intro k; exact ⟨rfl, rfl, rfl⟩
  | cons o rest ih =>
    intro k
    cases o with
    | true => refine ⟨by simp [retryAux], by simp [retryAux], by simp [retryAux]⟩
    | false =>
      have h := ih (k + 1)
      refine ⟨?_, ?_, ?_⟩
      · simp [retryAux, List.count_cons, h.1]
      · simp [retryAux, h.2.1]
      · simp [retryAux, List.count_cons, h.2.2]

/-- C8 counterexample: with 3 attempts that all fail, the code issues 3
control-line pulses, one after every failed attempt including the last,
whereas pulsing only between consecutive attempts (only when k < N, as
the claim states) would give 2. -/
theorem atomman_c8_cex :
    (mainTrace [false, false, false]).count MainEv.pulse = 3
    ∧ (3 : Nat) ≠ 3 - 1 := by decide

/-- C8 amended: when an attempt's window expires without activation the
attempt fails and the control line is pulsed after every failed attempt,
including the last, so an all-fail run of N attempts issues N pulses (not
only between pairs of attempts); the loop stops at the first successful
attempt; and a failed run is not fatal: the trace always ends by entering
steady state, with exactly one warning when activation never happened and
none otherwise. -/
theorem atomman_c8 (outs : List Bool) :
    (mainTrace outs).count MainEv.pulse
      = (outs.takeWhile (fun b => !b)).length
    ∧ (mainTrace outs).getLast? = some MainEv.steady
    ∧ (mainTrace outs).count MainEv.warn
      = (if outs.any (fun b => b) then 0 else 1) := by
  have h := retryAux_spec outs 1
  refine ⟨?_, ?_, ?_⟩
  · rw [mainTrace]
    simp only [List.count_append, h.1]
    cases hr : (retryAux 1 outs).2 <;> simp [hr]
  · rw [mainTrace]
    rw [show ([if (retryAux 1 outs).2 then MainEv.okMsg else MainEv.warn,
        MainEv.steady])
      = [if (retryAux 1 outs).2 then MainEv.okMsg else MainEv.warn]
        ++ [MainEv.steady] from rfl, ← List.append_assoc,
      List.getLast?_concat]
  · rw [mainTrace]
    simp only [List.count_append, h.2.2]
    rw [← h.2.1]
    cases hr : (retryAux 1 outs).2 <;> simp [hr]

/-- State of one network interface as read by _iface_info in screen.py
from /sys/class/net: operstate up, carrier flag, wireless flag. -/
structure IfInfo where
  up : Bool
  carrier : Bool
  wireless : Bool
  deriving Repr, DecidableEq

/-- Score computed by _pick_iface in screen.py for one interface: 2 for
up with carrier, 1 for up only, 0 for down, plus 1 if wired. -/
def ifScore (inf : IfInfo) : Nat :=
  (if inf.up && inf.carrier then 2 else if inf.up then 1 else 0)
  + (if !inf.wireless then 1 else 0)

/-- Ranking tuple (score, not wireless, name) built by _pick_iface for
each interface, compared the way Python compares tuples. -/
abbrev Tup := Nat × Bool × String

/-- Ranking tuple of an interface name in a world described by info. -/
def mkTup (info : String → IfInfo) (name : String) : Tup :=
  (ifScore (info name), !(info name).wireless, name)

/-- Lexicographic key of a ranking tuple: Python compares tuples
componentwise and strings by code points, so the tuple order is the lex
order on score, wiredness (False < True), name characters. -/
def tupKey (a : Tup) : Lex (Nat × Lex (Bool × List Char)) :=
  toLex (a.1, toLex (a.2.1, a.2.2.data))

/-- Relation used to model ranked.sort(reverse=True) in screen.py: x may
be placed before y exactly when x is tuple-greater-or-equal to y. -/
def tupGe (a b : Tup) : Prop := tupKey b ≤ tupKey a

instance : DecidableRel tupGe :=
  fun a b => inferInstanceAs (Decidable (tupKey b ≤ tupKey a))

instance : IsTotal Tup tupGe :=
  ⟨fun a b => (le_total (tupKey b) (tupKey a)).imp id id⟩

instance : IsTrans Tup tupGe :=
  ⟨fun _ _ _ hab hbc => le_trans hbc hab⟩

/-- Model of ranked.sort(reverse=True) in _pick_iface: a stable
descending insertion sort of the ranking tuples, placing a tuple before
the first strictly smaller one exactly as Python's stable sort does
(names are distinct in every use, so the result is unique anyway). -/
def sortDesc (l : List Tup) : List Tup := List.insertionSort tupGe l

/-- Model of the loop for score, wired, name in ranked: if score > 0:
return name, over an already sorted list. -/
def firstPositive (l : List Tup) : Option String :=
  (l.find? (fun t => 0 < t.1)).map (fun t => t.2.2)

/-- One scoring pass of _pick_iface over a list of interface names:
build the ranking tuples, sort them descending, return the first name
with positive score. -/
def rankPhase (info : String → IfInfo) (names : List String) :
    Option String :=
  firstPositive (sortDesc (names.map (mkTup info)))

/-- Model of _pick_iface(preferred) in screen.py: an env override wins;
otherwise score the default-route interfaces (in routing-table order),
then all non-loopback interfaces (cands, in alphabetical order), then
fall back to the first candidate if any exists. -/
def pick_iface (preferred : Option String) (defaults : List String)
    (cands : List String) (info : String → IfInfo) : Option String :=
  match preferred with
  | some p => some p
  | none =>
    match rankPhase info defaults with
    | some n => some n
    | none =>
      match rankPhase info cands with
      | some n => some n
      | none => cands.head?

/-- Modelled from the claim words, for the comparison: pick the
highest-scoring interface breaking ties by the order the interfaces were
returned (first maximal-score element of the list), with the same
rescan-and-fallback structure. -/
def pickBestByOrder (info : String → IfInfo) (names : List String) :
    Option String :=
  match names.foldl
      (fun acc n =>
        match acc with
        | none => some n
        | some b => if ifScore (info b) < ifScore (info n) then some n
            else acc)
      none with
  | none => none
  | some b => if 0 < ifScore (info b) then some b else none

/-- Modelled from the claim words: the full claimed picking algorithm,
with ties broken by the order of each phase's list. -/
def pick_iface_claim (defaults : List String) (cands : List String)
    (info : String → IfInfo) : Option String :=
  match pickBestByOrder info defaults with
  | some n => some n
  | none =>
    match pickBestByOrder info cands with
    | some n => some n
    | none => cands.head?

theorem tupGe_def {a b : Tup} : tupGe a b ↔ tupKey b ≤ tupKey a := Iff.rfl

theorem tupGe_score {a b : Tup} (h : tupGe a b) : b.1 ≤ a.1 :=
  Prod.Lex.monotone_fst (tupKey b) (tupKey a) (tupGe_def.mp h)

theorem rankPhase_none_iff (info : String → IfInfo) (names : List String) :
    rankPhase info names = none ↔ ∀ i ∈ names, ifScore (info i) = 0 := by
  rw [rankPhase, firstPositive, Option.map_eq_none', List.find?_eq_none]
  constructor
  · intro h i hi
    have hm : mkTup info i ∈ sortDesc (names.map (mkTup info)) :=
      ((List.perm_insertionSort tupGe _).mem_iff).mpr
        (List.mem_map_of_mem _ hi)
    have := h _ hm
    simp [mkTup] at this
    omega
  · intro h x hx
    have hx' : x ∈ names.map (mkTup info) :=
      ((List.perm_insertionSort tupGe _).mem_iff).mp hx
    obtain ⟨i, hi, rfl⟩ := List.mem_map.mp hx'
    simp [mkTup, h i hi]

theorem find_pos_sorted (l : List Tup) (hsort : l.Sorted tupGe) (t : Tup)
    (hfind : l.find? (fun u => 0 < u.1) = some t) :
    t ∈ l ∧ 0 < t.1 ∧ ∀ u ∈ l, tupGe t u := by
  cases l with
  | nil => cases hfind
  | cons x xs =>
    have hpair := List.pairwise_cons.mp hsort
    by_cases hx : 0 < x.1
    · rw [List.find?_cons_of_pos _ (by simpa using hx)] at hfind
      injection hfind with hf
      subst hf
      refine ⟨List.mem_cons_self _ _, hx, ?_⟩
      intro u hu
      rcases List.mem_cons.mp hu with heq | hmem
      · rw [heq]
        exact tupGe_def.mpr (le_refl _)
      · exact hpair.1 _ hmem
    · rw [List.find?_cons_of_neg _ (by simpa using hx)] at hfind
      have hnone : xs.find? (fun u => 0 < u.1) = none := by
        rw [List.find?_eq_none]
        intro y hy
        have := tupGe_score (hpair.1 _ hy)
        simp only [decide_eq_true_eq]
        omega
      rw [hnone] at hfind
      cases hfind

theorem rankPhase_some_spec (info : String → IfInfo) (names : List String)
    (n : String) (h : rankPhase info names = some n) :
    n ∈ names ∧ 0 < ifScore (info n)
    ∧ ∀ m ∈ names, tupKey (mkTup info m) ≤ tupKey (mkTup info n) := by
  rw [rankPhase, firstPositive] at h
  obtain ⟨t, hfind, hn⟩ := Option.map_eq_some'.mp h
  have hsorted : (sortDesc (names.map (mkTup info))).Sorted tupGe :=
    List.sorted_insertionSort tupGe (names.map (mkTup info))
  have hspec := find_pos_sorted _ hsorted t hfind
  have hmem : t ∈ names.map (mkTup info) :=
    ((List.perm_insertionSort tupGe _).mem_iff).mp hspec.1
  obtain ⟨i, hi, hmk⟩ := List.mem_map.mp hmem
  have hni : n = i := by rw [← hn, ← hmk]; rfl
  subst hni
  have ht : t = mkTup info n := hmk.symm
  refine ⟨hi, ?_, ?_⟩
  · have hsc : t.1 = ifScore (info n) := by rw [ht]; rfl
    have := hspec.2.1
    omega
  · intro m hm
    have hmm : mkTup info m ∈ sortDesc (names.map (mkTup info)) :=
      ((List.perm_insertionSort tupGe _).mem_iff).mpr
        (List.mem_map_of_mem _ hm)
    have hge := hspec.2.2 _ hmm
    rw [← ht]
    exact tupGe_def.mp hge

/-- Interface world for the C6 counterexample: every interface is
wireless, up and with carrier. -/
def infoAllWireless : String → IfInfo := fun _ => ⟨true, true, true⟩

/-- C6 counterexample: with two equally scored default-route interfaces
in routing-table order wlan0, wlan1 (both wireless, up, with carrier),
the code picks wlan1 — Python's reverse tuple sort breaks the score tie
by descending name — while breaking ties by routing-table order as the
claim states would pick wlan0. -/
theorem atomman_c6_cex :
    pick_iface none ["wlan0", "wlan1"] [] infoAllWireless = some "wlan1"
    ∧ pick_iface_claim ["wlan0", "wlan1"] [] infoAllWireless = some "wlan0"
    ∧ ifScore (infoAllWireless "wlan0") = ifScore (infoAllWireless "wlan1")
    ∧ (some "wlan1" : Option String) ≠ some "wlan0" := by
  refine ⟨by decide, by decide, by decide, by decide⟩

/-- C6 amended: the picker scores each default-route interface as 2 (up
with carrier), 1 (up only), 0 (down), plus 1 if wired, and returns an
interface of maximal (score, wired, name) tuple under the lexicographic
order — so score ties are broken by preferring wired and then the
reverse-alphabetical name, not the routing-table order — provided that
maximum has positive score; if no default-route interface scores above 0
it rescans the alphabetical non-loopback candidates the same way, and if
still none qualifies it returns the first candidate when one exists. -/
theorem atomman_c6 (defaults cands : List String)
    (info : String → IfInfo) :
    (∀ n, rankPhase info defaults = some n →
      pick_iface none defaults cands info = some n
      ∧ n ∈ defaults ∧ 0 < ifScore (info n)
      ∧ ∀ m ∈ defaults, tupKey (mkTup info m) ≤ tupKey (mkTup info n))
    ∧ (rankPhase info defaults = none ↔
        ∀ i ∈ defaults, ifScore (info i) = 0)
    ∧ (rankPhase info defaults = none →
        ∀ n, rankPhase info cands = some n →
          pick_iface none defaults cands info = some n
          ∧ n ∈ cands ∧ 0 < ifScore (info n)
          ∧ ∀ m ∈ cands, tupKey (mkTup info m) ≤ tupKey (mkTup info n))
    ∧ (rankPhase info defaults = none → rankPhase info cands = none →
        pick_iface none defaults cands info = cands.head?) := by
  refine ⟨?_, rankPhase_none_iff info defaults, ?_, ?_⟩
  · intro n h
    have hs := rankPhase_some_spec info defaults n h
    exact ⟨by simp [pick_iface, h], hs.1, hs.2.1, hs.2.2⟩
  · intro h0 n h
    have hs := rankPhase_some_spec info cands n h
    exact ⟨by simp [pick_iface, h0, h], hs.1, hs.2.1, hs.2.2⟩
  · intro h0 h1
    simp [pick_iface, h0, h1]

/-- Interface world for the C6 witness: every interface is wired, up and
with carrier. -/
def infoAllWired : String → IfInfo := fun _ => ⟨true, true, false⟩

/-- C6 witness: the amended theorem applied to a single wired default
interface (picked, member, positive score) and, hypotheses discharged at
a concrete world, to the empty-scoring fallback clause. -/
theorem atomman_c6_witness :
    pick_iface none ["eth0"] [] infoAllWired = some "eth0"
    ∧ 0 < ifScore (infoAllWired "eth0")
    ∧ pick_iface none [] ["dummy0"] (fun _ => ⟨false, false, true⟩)
      = some "dummy0" := by
  refine ⟨?_, ?_, ?_⟩
  · exact ((atomman_c6 ["eth0"] [] infoAllWired).1 "eth0" (by decide)).1
  · exact ((atomman_c6 ["eth0"] [] infoAllWired).1 "eth0" (by decide)).2.2.1
  · have h := (atomman_c6 [] ["dummy0"] (fun _ => ⟨false, false, true⟩)).2.2.2
      (by decide) (by decide)
    simpa using h

/-- World visible to the NetMeter during one rates_ks call in screen.py:
the default-route interface names, the alphabetical non-loopback
candidates, each interface's /sys state and its /proc/net/dev counters
(none when the interface is absent from /proc/net/dev), and the current
wall-clock time. All reads within the call see this one world. -/
structure NetWorld where
  defaults : List String
  cands : List String
  info : String → IfInfo
  netdev : String → Option (Nat × Nat)
  now : ℚ

/-- State of NetMeter in screen.py: the chosen interface and the counter
baseline: rx0, tx0 and t0 are always assigned together in the source, so
they are bundled as one optional triple. -/
structure NetState where
  iface : Option String
  base : Option (Nat × Nat × ℚ)

/-- Model of NetMeter._prime in screen.py: read the counters of the
current interface; on failure re-pick once and read again; record the
baseline only when a read succeeded (a final failure keeps the previous
baseline fields but the switched interface). -/
def prime (w : NetWorld) (st : NetState) : NetState :=
  match st.iface with
  | none => st
  | some i =>
    match w.netdev i with
    | some (rx, tx) => { st with base := some (rx, tx, w.now) }
    | none =>
      match pick_iface none w.defaults w.cands w.info with
      | none => { st with iface := none }
      | some j =>
        match w.netdev j with
        | some (rx, tx) => { iface := some j, base := some (rx, tx, w.now) }
        | none => { st with iface := some j }

/-- Model of NetMeter.maybe_repick in screen.py: with no interface, pick
and prime; otherwise, when the interface is down or wireless without
carrier, re-run the picker, and only when it yields a different
interface switch to it and prime. -/
def maybe_repick (w : NetWorld) (st : NetState) : NetState :=
  match st.iface with
  | none =>
    prime w { st with iface := pick_iface none w.defaults w.cands w.info }
  | some i =>
    let inf := w.info i
    if !inf.up || (inf.wireless && !inf.carrier) then
      match pick_iface none w.defaults w.cands w.info with
      | some j =>
        if j ≠ i then prime w { iface := some j, base := st.base } else st
      | none => st
    else st

/-- Model of NetMeter.rates_ks in screen.py: repick if needed, then read
the counters; if either the fresh read or the stored baseline is missing,
re-prime and return no rates; otherwise return the clamped per-second
KB rates over dt = max(0.001, now - t0) and advance the baseline. -/
def rates_ks (w : NetWorld) (st : NetState) :
    NetState × (Option ℚ × Option ℚ) :=
  let st1 := maybe_repick w st
  match st1.iface with
  | none => (st1, (none, none))
  | some i =>
    match w.netdev i, st1.base with
    | some (rx1, tx1), some (rx0, tx0, t0) =>
      let dt := max (1 / 1000) (w.now - t0)
      let rxk := max 0 (((rx1 : ℚ) - (rx0 : ℚ)) / dt / 1024)
      let txk := max 0 (((tx1 : ℚ) - (tx0 : ℚ)) / dt / 1024)
      ({ iface := some i, base := some (rx1, tx1, w.now) },
        (some rxk, some txk))
    | _, _ => (prime w st1, (none, none))

/-- World for the C7 counterexample: a single wired interface eth0 that
is down but still present in /proc/net/dev, at time 5. -/
def w0 : NetWorld :=
  { defaults := ["eth0"]
    cands := ["eth0"]
    info := fun _ => ⟨false, false, false⟩
    netdev := fun n => if n = "eth0" then some (100, 200) else none
    now := 5 }

/-- Meter state for the C7 counterexample: eth0 is current, with a
baseline taken at time 4 equal to the current counters. -/
def st0 : NetState := { iface := some "eth0", base := some (100, 200, 4) }

/-- C7 counterexample: the current interface has gone down before the
rates call, re-selection runs but returns the same interface, so the
call keeps the old baseline and returns a rate pair (0, 0) rather than
the (none, none) the claim requires for every such call. -/
theorem atomman_c7_cex :
    (w0.info "eth0").up = false
    ∧ st0.iface = some "eth0"
    ∧ maybe_repick w0 st0 = st0
    ∧ (rates_ks w0 st0).2 = (some 0, some 0)
    ∧ ((some (0 : ℚ), some (0 : ℚ)) : Option ℚ × Option ℚ)
      ≠ (none, none) := by
  refine ⟨rfl, rfl, rfl, ?_, by decide⟩
  have key : rates_ks w0 st0
      = ({ iface := some "eth0", base := some (100, 200, (5 : ℚ)) },
         (some (max 0 ((((100 : ℕ) : ℚ) - ((100 : ℕ) : ℚ))
            / max (1 / 1000) ((5 : ℚ) - 4) / 1024)),
          some (max 0 ((((200 : ℕ) : ℚ) - ((200 : ℕ) : ℚ))
            / max (1 / 1000) ((5 : ℚ) - 4) / 1024)))) := by rfl
  rw [key]
  norm_num

/-- C7 amended: when the current interface has gone down (or is wireless
without carrier) before a rates call, that call re-runs the picker; when
the picker returns a different interface with readable counters the call
switches to it, re-primes the baseline from it and returns the rate pair
(0, 0) computed from the fresh baseline and an immediate second sample of
the new interface — not (none, none); when the picker returns the same
interface or nothing, the baseline is kept and that same call returns a
rate computed from the previous baseline whenever the counters are
readable, and (none, none) exactly when the counters or the baseline are
missing. -/
theorem atomman_c7 (w : NetWorld) (st : NetState) (i : String)
    (hif : st.iface = some i)
    (hdown : (w.info i).up = false
      ∨ ((w.info i).wireless = true ∧ (w.info i).carrier = false)) :
    (∀ j rx tx, pick_iface none w.defaults w.cands w.info = some j →
      j ≠ i → w.netdev j = some (rx, tx) →
      rates_ks w st
        = ({ iface := some j, base := some (rx, tx, w.now) },
           (some 0, some 0)))
    ∧ (pick_iface none w.defaults w.cands w.info = some i →
        maybe_repick w st = st)
    ∧ (pick_iface none w.defaults w.cands w.info = none →
        maybe_repick w st = st)
    ∧ ((pick_iface none w.defaults w.cands w.info = some i
        ∨ pick_iface none w.defaults w.cands w.info = none) →
      ∀ rx1 tx1 rx0 tx0 t0, w.netdev i = some (rx1, tx1) →
        st.base = some (rx0, tx0, t0) →
        (rates_ks w st).2
          = (some (max 0 (((rx1 : ℚ) - (rx0 : ℚ))
              / max (1 / 1000) (w.now - t0) / 1024)),
             some (max 0 (((tx1 : ℚ) - (tx0 : ℚ))
              / max (1 / 1000) (w.now - t0) / 1024))))
    ∧ ((pick_iface none w.defaults w.cands w.info = some i
        ∨ pick_iface none w.defaults w.cands w.info = none) →
      (w.netdev i = none ∨ st.base = none) →
      (rates_ks w st).2 = (none, none)) := by
  obtain ⟨ifc, bs⟩ := st
  have hifc : ifc = some i := hif
  subst hifc
  have hcond : (!(w.info i).up || ((w.info i).wireless && !(w.info i).carrier))
      = true := by
    rcases hdown with h | ⟨h1, h2⟩
    · simp [h]
    · simp [h1, h2]
  have hrep_same : ∀ (hp : pick_iface none w.defaults w.cands w.info = some i),
      maybe_repick w ⟨some i, bs⟩ = ⟨some i, bs⟩ := by
    intro hp
    simp [maybe_repick, hcond, hp]
  have hrep_none : ∀ (hp : pick_iface none w.defaults w.cands w.info = none),
      maybe_repick w ⟨some i, bs⟩ = ⟨some i, bs⟩ := by
    intro hp
    simp [maybe_repick, hcond, hp]
  refine ⟨?_, hrep_same, hrep_none, ?_, ?_⟩
  · intro j rx tx hpick hne hnet
    have hrep : maybe_repick w ⟨some i, bs⟩
        = prime w { iface := some j, base := bs } := by
      simp [maybe_repick, hcond, hpick, hne]
    have hpr : prime w { iface := some j, base := bs }
        = { iface := some j, base := some (rx, tx, w.now) } := by
      simp [prime, hnet]
    show rates_ks w ⟨some i, bs⟩ = _
    rw [rates_ks]
    simp only [hrep, hpr, hnet]
    norm_num [Prod.mk.injEq]
  · intro hp rx1 tx1 rx0 tx0 t0 hnet hbs
    have hrep : maybe_repick w ⟨some i, bs⟩ = ⟨some i, bs⟩ := by
      rcases hp with hp | hp
      · exact hrep_same hp
      · exact hrep_none hp
    show (rates_ks w ⟨some i, bs⟩).2 = _
    rw [rates_ks]
    simp only [hrep, hnet, hbs]
  · intro hp hmiss
    have hrep : maybe_repick w ⟨some i, bs⟩ = ⟨some i, bs⟩ := by
      rcases hp with hp | hp
      · exact hrep_same hp
      · exact hrep_none hp
    show (rates_ks w ⟨some i, bs⟩).2 = _
    rw [rates_ks]
    rcases hmiss with hm | hm
    · simp only [hrep, hm]
    · simp only [hrep, hm]
      cases hn : w.netdev i with
      | none => rfl
      | some p => rfl

/-- World for the C7 witness: eth0 (current, down) and eth1 (up, carrier,
wired), both with readable counters, at time 7. -/
def w1 : NetWorld :=
  { defaults := ["eth0", "eth1"]
    cands := ["eth0", "eth1"]
    info := fun n => if n = "eth1" then ⟨true, true, false⟩
      else ⟨false, false, false⟩
    netdev := fun n => if n = "eth0" then some (10, 20)
      else if n = "eth1" then some (50, 60) else none
    now := 7 }

/-- Meter state for the C7 witness: eth0 current with a baseline from
time 6. -/
def st1 : NetState := { iface := some "eth0", base := some (10, 20, 6) }

/-- C7 witness: the amended theorem applied at a concrete world where
the picker switches from the downed eth0 to eth1, showing the re-pick
call returning a rate pair computed on the new interface. -/
theorem atomman_c7_witness :
    rates_ks w1 st1
      = ({ iface := some "eth1", base := some (50, 60, (7 : ℚ)) },
         (some 0, some 0)) := by
  have h := (atomman_c7 w1 st1 "eth0" rfl (Or.inl rfl)).1 "eth1" 50 60
    (by decide) (by decide) (by decide)
  exact h
